import Mathlib

/-!
Verification development for the pkm-portfolio server (src/server.py).

The file shallowly embeds the price-ingestion and valuation pipeline:
JSON documents become an inductive `Json` type (numbers as rationals),
the `prices_daily` table becomes a list of `PriceRow` records with the
`on conflict (id_product, date) do update` upsert made explicit, the
feed-sync handler `_run_sync` (the second, effective definition, lines
284-337) becomes `runSync`, the manual-import handler `import_prices`
becomes `import_prices`, and the `portfolio_value` SQL query becomes
`portfolio_value`.  The fallible fetch / gzip / decode / json.loads
stages of `_run_sync` are abstracted into the `FeedResult` input;
everything from the parsed document on is modelled from the source.
-/

/-- A calendar date, as Python's `datetime.date` triple. -/
structure Date where
  year : Nat
  month : Nat
  day : Nat
deriving DecidableEq, Repr

/-- Lexicographic order on dates, as Python compares `date` values and
as SQL compares the `date` column. -/
def dateBle (a b : Date) : Bool :=
  decide (a.year < b.year ∨ (a.year = b.year ∧
    (a.month < b.month ∨ (a.month = b.month ∧ a.day ≤ b.day))))

/-- Gregorian leap-year test, as `datetime`'s calendar. -/
def isLeap (y : Nat) : Bool :=
  (y % 4 == 0 && y % 100 != 0) || y % 400 == 0

/-- Number of days in a month, as `datetime`'s calendar. -/
def daysInMonth (y m : Nat) : Nat :=
  if m = 2 then (if isLeap y then 29 else 28)
  else if m = 4 ∨ m = 6 ∨ m = 9 ∨ m = 11 then 30
  else 31

/-- Splitting a character list at every dash, the list analogue of
splitting the `when` string on `"-"`. -/
def splitOnDash : List Char → List (List Char)
  | [] => [[]]
  | c :: rest =>
    if c = '-' then [] :: splitOnDash rest
    else
      match splitOnDash rest with
      | [] => [[c]]
      | g :: gs => (c :: g) :: gs

/-- Accumulating decimal evaluation of a digit run; `none` as soon as a
non-digit appears. -/
def digitsToNatAux (acc : Nat) : List Char → Option Nat
  | [] => some acc
  | c :: rest =>
    if c.isDigit then digitsToNatAux (acc * 10 + (c.toNat - 48)) rest
    else none

/-- The value of a non-empty run of decimal digits, else `none`. -/
def digitsToNat (cs : List Char) : Option Nat :=
  match cs with
  | [] => none
  | _ => digitsToNatAux 0 cs

/-- The `%Y` component of `strptime`, whose CPython `_strptime` pattern
is exactly four digits (`\d\d\d\d`). -/
def yearOfChars (cs : List Char) : Option Nat :=
  if cs.length = 4 then digitsToNat cs else none

/-- The `%m` component of `strptime`, CPython pattern
`1[0-2]|0[1-9]|[1-9]`: a month 1-12 written with one digit or two (no
space padding). -/
def monthOfChars (cs : List Char) : Option Nat :=
  match cs with
  | [c] => if '1' ≤ c ∧ c ≤ '9' then some (c.toNat - 48) else none
  | [c1, c2] =>
    if c1 = '1' ∧ '0' ≤ c2 ∧ c2 ≤ '2' then some (10 + (c2.toNat - 48))
    else if c1 = '0' ∧ '1' ≤ c2 ∧ c2 ≤ '9' then some (c2.toNat - 48)
    else none
  | _ => none

/-- The `%d` component of `strptime`, CPython pattern
`3[0-1]|[1-2]\d|0[1-9]|[1-9]| [1-9]`: a day 1-31 written with one digit,
two digits, or a space-padded single digit. -/
def dayOfChars (cs : List Char) : Option Nat :=
  match cs with
  | [c] => if '1' ≤ c ∧ c ≤ '9' then some (c.toNat - 48) else none
  | [c1, c2] =>
    if c1 = '3' ∧ '0' ≤ c2 ∧ c2 ≤ '1' then some (30 + (c2.toNat - 48))
    else if (c1 = '1' ∨ c1 = '2') ∧ c2.isDigit then
      some ((c1.toNat - 48) * 10 + (c2.toNat - 48))
    else if (c1 = '0' ∨ c1 = ' ') ∧ '1' ≤ c2 ∧ c2 ≤ '9' then
      some (c2.toNat - 48)
    else none
  | _ => none

/-- Model of `datetime.strptime(s, "%Y-%m-%d").date()`, following
CPython's `_strptime` regex and the `datetime` constructor's validation.
None of the three component patterns can match a dash, and the match
must consume the whole string, so a string is accepted exactly when it
splits on dashes into an exactly-4-digit year, a 1-2-digit month 1-12
and a day 1-31 (optionally space-padded, as in `" 1"`), with the year at
least `MINYEAR = 1` and the day existing in the (leap-aware) month.  Any
other string raises `ValueError`, modelled as `none`.  (Non-ASCII
Unicode digits, which the regex `\d` would also match, are not
modelled; no claim exercises them.) -/
def parseDate (s : String) : Option Date :=
  match splitOnDash s.toList with
  | [ys, ms, ds] =>
    match yearOfChars ys, monthOfChars ms, dayOfChars ds with
    | some y, some m, some d =>
      if 1 ≤ y ∧ d ≤ daysInMonth y m then some ⟨y, m, d⟩ else none
    | _, _, _ => none
  | _ => none

/-- Parsed JSON values, as produced by `json.loads`.  JSON numbers are
modelled as rationals. -/
inductive Json where
  | null : Json
  | bool (b : Bool) : Json
  | num (q : ℚ) : Json
  | str (s : String) : Json
  | arr (items : List Json) : Json
  | obj (fields : List (String × Json)) : Json

/-- Python `dict.get(k)` on a parsed JSON object: the value of the first
binding of `k`, and `None` (here `Json.null`) when the key is absent. -/
def jget (fields : List (String × Json)) (k : String) : Json :=
  match fields.find? (fun p => p.1 == k) with
  | some p => p.2
  | none => Json.null

/-- Truncation of a rational toward zero, as Python `int(float)`. -/
def ratTrunc (q : ℚ) : Int :=
  if q < 0 then -(Rat.floor (-q)) else Rat.floor q

/-- Model of Python `int(str)` on the string's characters: an optional
sign followed by a non-empty digit run; anything else raises `ValueError`.
(Python additionally strips surrounding whitespace and allows digit-group
underscores; no claim exercises those.) -/
def pyStrToInt (cs : List Char) : Option Int :=
  match cs with
  | '-' :: rest => (digitsToNat rest).map (fun n => -(n : Int))
  | '+' :: rest => (digitsToNat rest).map (fun n => (n : Int))
  | _ => (digitsToNat cs).map (fun n => (n : Int))

/-- Model of Python `int(x)` on a JSON value: numbers truncate toward zero,
decimal strings (optionally signed) parse, booleans become 0/1, and
`None`/lists/objects raise `TypeError`, modelled as `none`. -/
def pyInt : Json → Option Int
  | Json.num q => some (ratTrunc q)
  | Json.str s => pyStrToInt s.toList
  | Json.bool b => some (if b then 1 else 0)
  | _ => none

/-- The value stored in a `numeric` column for a price field in the
fragment where `cx.execute` succeeds: a number is stored as-is,
`null` / a missing field stores SQL NULL.  This is the shape the
field-aliasing and upsert claims exercise; the full `cx.execute`-level
outcome of a price value of arbitrary shape — including the shapes that
make the execute raise and the numeric strings the server casts and
stores — is `adaptPrice` below. -/
def asPrice : Json → Option ℚ
  | Json.num q => some q
  | _ => none

/-- One row of the `prices_daily` table (the serial `id` column is not
observable through any handler and is omitted). -/
structure PriceRow where
  id_product : Int
  date : Date
  avg_price : Option ℚ
  low_price : Option ℚ
  trend_price : Option ℚ
  data : Json

/-- The conflict key of a row: `unique (id_product, date)` in `SCHEMA_SQL`. -/
def rkey (r : PriceRow) : Int × Date :=
  (r.id_product, r.date)

/-- Model of `insert into prices_daily ... on conflict (id_product,date)
do update set ...`: if a row with the same key exists it is overwritten in
place (under the table's unique constraint at most one matches), otherwise
the new row is appended. -/
def upsertRow (s : List PriceRow) (r : PriceRow) : List PriceRow :=
  if s.any (fun q => decide (rkey q = rkey r)) then
    s.map (fun q => if rkey q = rkey r then r else q)
  else s ++ [r]

/-- Model of `isinstance(data, dict)` / `isinstance(data, list)` wrapper-key
handling in `_run_sync`: a dict is unwrapped through `"products"` if that
key is present, else through `"data"` if present; the result (or the root)
must be a list, otherwise the handler raises the 400 "Unerwartetes
JSON-Format" HTTPException, modelled as `none`. -/
def locateEntries (doc : Json) : Option (List Json) :=
  match
    (match doc with
     | Json.obj fields =>
       if fields.any (fun p => p.1 == "products") then jget fields "products"
       else if fields.any (fun p => p.1 == "data") then jget fields "data"
       else doc
     | _ => doc) with
  | Json.arr l => some l
  | _ => none

/-- One feed entry turned into a row for date `today`, as the loop body of
`_run_sync`: `int(row.get("idProduct"))` is wrapped in `try/except` with
`continue`, so any entry that is not an object, or whose `idProduct` field
does not convert with `int`, yields `none` (the row is skipped); otherwise
the `avgPrice` / `lowPrice` / `trendPrice` fields and the whole original
entry are stored. -/
def rowToPrice (today : Date) (row : Json) : Option PriceRow :=
  match row with
  | Json.obj fields =>
    match pyInt (jget fields "idProduct") with
    | some idp =>
      some { id_product := idp, date := today,
             avg_price := asPrice (jget fields "avgPrice"),
             low_price := asPrice (jget fields "lowPrice"),
             trend_price := asPrice (jget fields "trendPrice"),
             data := row }
    | none => none
  | _ => none

/-- One iteration of the `for row in data` loop of `_run_sync` over the
(store, inserted-count) state, for batches in which every reached
`cx.execute` succeeds (every price value of every inserted entry is
adaptable): the fragment the field-aliasing and upsert claims exercise.
The loop body including the unguarded `cx.execute` and its exceptions is
`syncStepE` below. -/
def syncStep (today : Date) (acc : List PriceRow × Nat) (row : Json) :
    List PriceRow × Nat :=
  match rowToPrice today row with
  | none => acc
  | some r => (upsertRow acc.1 r, acc.2 + 1)

/-- The whole `for row in data` loop of `_run_sync`, starting from a given
store with `inserted = 0`. -/
def syncEntries (today : Date) (store : List PriceRow) (entries : List Json) :
    List PriceRow × Nat :=
  entries.foldl (syncStep today) (store, 0)

/-- The store after one feed batch has been upserted for `today`. -/
def applyBatch (today : Date) (store : List PriceRow) (entries : List Json) :
    List PriceRow :=
  (syncEntries today store entries).1

/-- The error outcomes of `_run_sync`, in source order: missing
`CARDMARKET_URL` (HTTP 400), a `requests.RequestException` incl.
`raise_for_status` (HTTP 502), a gzip/decode/`json.loads` failure
(HTTP 502), the wrong-structure HTTP 400, and an unhandled exception
raised by `cx.execute` inside the row loop (surfaced by FastAPI as an
HTTP 500). -/
inductive SyncError where
  | configError : SyncError
  | fetchFailure : SyncError
  | parseFailure : SyncError
  | schemaFailure : SyncError
  | execError : SyncError
deriving DecidableEq, Repr

/-- The outcome of the fetch / decompress / decode / parse stages of
`_run_sync`, abstracted as an input: the network round trip failed, the
payload failed to decompress/parse as JSON, or a parsed document was
obtained. -/
inductive FeedResult where
  | fetchError : FeedResult
  | parseError : FeedResult
  | parsed (doc : Json) : FeedResult

/-- The success payload of `_run_sync`: `{"status":"ok", inserted, date}`. -/
structure SyncResponse where
  inserted : Nat
  date : Date
deriving DecidableEq, Repr

/-- Model of `_run_sync` (the effective definition at lines 284-337): the
config check, then the fetch/parse stages (via `feed`), then wrapper-key
location, then the row loop.  The returned store is the database state the
caller observes: on any raised HTTPException it is the unchanged input
store. -/
def runSync (urlConfigured : Bool) (feed : FeedResult) (today : Date)
    (store : List PriceRow) : List PriceRow × Except SyncError SyncResponse :=
  if !urlConfigured then (store, Except.error SyncError.configError)
  else
    match feed with
    | FeedResult.fetchError => (store, Except.error SyncError.fetchFailure)
    | FeedResult.parseError => (store, Except.error SyncError.parseFailure)
    | FeedResult.parsed doc =>
      match locateEntries doc with
      | none => (store, Except.error SyncError.schemaFailure)
      | some entries =>
        let sn := syncEntries today store entries
        (sn.1, Except.ok ⟨sn.2, today⟩)

/-- An unsigned decimal of the PostgreSQL `numeric` input grammar:
digits with an optional fraction part (`1`, `1.`, `.5`), at least one
digit overall. -/
def numericCastUnsigned (cs : List Char) : Option ℚ :=
  match cs.dropWhile Char.isDigit with
  | [] =>
    if cs.isEmpty then none
    else (digitsToNat cs).map (fun n => (n : ℚ))
  | '.' :: frac =>
    if frac.all Char.isDigit ∧ (cs.takeWhile Char.isDigit ≠ [] ∨ frac ≠ []) then
      some (((digitsToNatAux 0 (cs.takeWhile Char.isDigit)).getD 0 : ℚ) +
        ((digitsToNatAux 0 frac).getD 0 : ℚ) / (10 ^ frac.length))
    else none
  | _ => none

/-- The text-to-`numeric` cast the server applies when a Python `str` is
bound to a `numeric` column: an optional sign and a plain decimal;
anything else raises at `cx.execute`, modelled as `none`.  (PostgreSQL
additionally accepts exponents, surrounding whitespace, `NaN` and
infinities; no claim exercises those forms.) -/
def numericCast (cs : List Char) : Option ℚ :=
  match cs with
  | '-' :: rest => (numericCastUnsigned rest).map Neg.neg
  | '+' :: rest => numericCastUnsigned rest
  | _ => numericCastUnsigned cs

/-- The outcome at `cx.execute` of one price value taken from an entry
with `row.get`: `some v` means the statement stores `v` in the `numeric`
column (`some none` being SQL NULL), while `none` means the execute
raises — psycopg cannot adapt a dict, and a boolean, a list or a
non-numeric string fails on the way into the `numeric` column — which
aborts the request. -/
def adaptPrice : Json → Option (Option ℚ)
  | Json.null => some none
  | Json.num q => some (some q)
  | Json.str s => (numericCast s.toList).map (fun v => some v)
  | _ => none

/-- The loop body of `_run_sync` including the unguarded `cx.execute`
(server.py line 328): only `int(row.get("idProduct"))` sits inside the
`try/except`, so a non-object entry or an unresolvable identifier is
skipped (`some acc`), but once the identifier resolves the execute runs
outside any handler and an unadaptable/uncastable price value raises,
modelled as `none`, aborting the whole batch. -/
def syncStepE (today : Date) (acc : List PriceRow × Nat) (row : Json) :
    Option (List PriceRow × Nat) :=
  match row with
  | Json.obj fields =>
    match pyInt (jget fields "idProduct") with
    | none => some acc
    | some idp =>
      match adaptPrice (jget fields "avgPrice"),
          adaptPrice (jget fields "lowPrice"),
          adaptPrice (jget fields "trendPrice") with
      | some avg, some low, some trend =>
        some (upsertRow acc.1
          { id_product := idp, date := today, avg_price := avg,
            low_price := low, trend_price := trend,
            data := Json.obj fields }, acc.2 + 1)
      | _, _, _ => none
  | _ => some acc

/-- The whole `for row in data` loop of `_run_sync` with the execute's
exception path: the first raising entry aborts the batch. -/
def syncEntriesE (today : Date) (store : List PriceRow)
    (entries : List Json) : Option (List PriceRow × Nat) :=
  entries.foldlM (syncStepE today) (store, 0)

/-- Refinement of `runSync` whose row loop is `syncEntriesE`: an
unhandled `cx.execute` exception escapes the `with get_conn()` block,
which rolls the transaction back, so the caller observes the unchanged
input store and an internal server error. -/
def runSyncE (urlConfigured : Bool) (feed : FeedResult) (today : Date)
    (store : List PriceRow) : List PriceRow × Except SyncError SyncResponse :=
  if !urlConfigured then (store, Except.error SyncError.configError)
  else
    match feed with
    | FeedResult.fetchError => (store, Except.error SyncError.fetchFailure)
    | FeedResult.parseError => (store, Except.error SyncError.parseFailure)
    | FeedResult.parsed doc =>
      match locateEntries doc with
      | none => (store, Except.error SyncError.schemaFailure)
      | some entries =>
        match syncEntriesE today store entries with
        | none => (store, Except.error SyncError.execError)
        | some sn => (sn.1, Except.ok ⟨sn.2, today⟩)

/-- The error outcomes of the manual-import handler `import_prices`: the
token mismatch (HTTP 401), the malformed `when` parameter (HTTP 400), and
an unhandled row-conversion exception (`int(row.get("idProduct"))` has no
`try/except` in this handler), which aborts the request. -/
inductive ImportError where
  | unauthorized : ImportError
  | badWhen : ImportError
  | rowConversionError : ImportError
deriving DecidableEq, Repr

/-- The success payload of `import_prices`: `{"inserted", "date"}`. -/
structure ImportResponse where
  inserted : Nat
  date : Date
deriving DecidableEq, Repr

/-- One iteration of the `for row in rows` loop of `import_prices`.  The
body has no `try/except`, so a row whose `idProduct` does not convert with
`int` raises, modelled as `none`. -/
def importRow (d : Date) (acc : List PriceRow × Nat)
    (row : List (String × Json)) : Option (List PriceRow × Nat) :=
  match pyInt (jget row "idProduct") with
  | none => none
  | some idp =>
    some (upsertRow acc.1
            { id_product := idp, date := d,
              avg_price := asPrice (jget row "avgPrice"),
              low_price := asPrice (jget row "lowPrice"),
              trend_price := asPrice (jget row "trendPrice"),
              data := Json.obj row },
          acc.2 + 1)

/-- The whole `for row in rows` loop of `import_prices`, short-circuiting
on the first row that raises. -/
def importRows (d : Date) (store : List PriceRow)
    (rows : List (List (String × Json))) : Option (List PriceRow × Nat) :=
  rows.foldlM (importRow d) (store, 0)

/-- Model of the `import_prices` handler (`POST /admin/import`): the token
check, then `today = date.today() if not when else
datetime.strptime(when, "%Y-%m-%d").date()` guarded by `except ValueError`
(so `when=None` and the falsy `when=""` both select `date.today()`), then
the row loop inside `with get_conn()`.  A raised row-conversion exception
propagates out of the `with` block, which rolls the transaction back, so
the observed store is the unchanged input store. -/
def import_prices (tokenOk : Bool) (whenParam : Option String) (today : Date)
    (rows : List (List (String × Json))) (store : List PriceRow) :
    List PriceRow × Except ImportError ImportResponse :=
  if !tokenOk then (store, Except.error ImportError.unauthorized)
  else
    match
      (match whenParam with
       | none => some today
       | some s => if s.isEmpty then some today else parseDate s) with
    | none => (store, Except.error ImportError.badWhen)
    | some d =>
      match importRows d store rows with
      | none => (store, Except.error ImportError.rowConversionError)
      | some sn => (sn.1, Except.ok ⟨sn.2, d⟩)

/-- One row of the `cards` table, restricted to the columns the valuation
query reads. -/
structure Card where
  id : Int
  id_product : Option Int

/-- One row of the `holdings` table, restricted to the columns the
valuation query reads.  The schema enforces `quantity >= 0`. -/
structure Holding where
  card_id : Int
  quantity : Nat

/-- SQL `max(date)` over a list of dates (NULL, i.e. `none`, on the empty
group). -/
def maxDate (ds : List Date) : Option Date :=
  ds.foldl
    (fun acc x =>
      match acc with
      | none => some x
      | some m => some (if dateBle m x then x else m))
    none

/-- The `latest` CTE of the `portfolio_value` query for one product:
`select max(date) from prices_daily where id_product = pid`.  There is no
upper bound on the date. -/
def latestDate (prices : List PriceRow) (pid : Int) : Option Date :=
  maxDate ((prices.filter (fun p => decide (p.id_product = pid))).map
    (fun p => p.date))

/-- The `left join prices_daily p on p.id_product = c.id_product and
p.date = l.d` lookup: the (under the unique key, unique) row of the
product at its latest date. -/
def priceRowFor (prices : List PriceRow) (pid : Int) : Option PriceRow :=
  match latestDate prices pid with
  | none => none
  | some d => prices.find? (fun p => decide (p.id_product = pid ∧ p.date = d))

/-- SQL `coalesce(p.trend_price, p.avg_price, p.low_price, 0)`. -/
def coalescePrice (p : PriceRow) : ℚ :=
  match p.trend_price with
  | some t => t
  | none =>
    match p.avg_price with
    | some a => a
    | none =>
      match p.low_price with
      | some l => l
      | none => 0

/-- The summand contributed by one holding joined with one card:
`h.quantity * coalesce(p.trend_price, p.avg_price, p.low_price, 0)`, where
a NULL `id_product` or an empty price group makes the left-joined `p` row
NULL and the coalesce (and hence the product) collapse to `quantity * 0`. -/
def cardValue (prices : List PriceRow) (h : Holding) (c : Card) : ℚ :=
  match c.id_product with
  | none => 0
  | some pid =>
    match priceRowFor prices pid with
    | none => 0
    | some p => (h.quantity : ℚ) * coalescePrice p

/-- The contribution of one holding: the inner `join cards c on
c.id = h.card_id` produces one summand per matching card. -/
def holdingValue (cards : List Card) (prices : List PriceRow) (h : Holding) :
    ℚ :=
  ((cards.filter (fun c => decide (c.id = h.card_id))).map
    (cardValue prices h)).sum

/-- The aggregate `coalesce(sum(...), 0)` of the `portfolio_value` query. -/
def portfolioTotal (cards : List Card) (holdings : List Holding)
    (prices : List PriceRow) : ℚ :=
  (holdings.map (holdingValue cards prices)).sum

/-- Python `round(x, 2)` on the total, modelled as mathematical rounding
to 2 decimal places (Python's float round-half-even differs only at exact
ties, which the binary floats of the claims do not hit). -/
def round2 (q : ℚ) : ℚ :=
  (Rat.floor (q * 100 + 1 / 2) : ℚ) / 100

/-- Model of the `portfolio_value` handler (`GET /api/portfolio`): the SQL
aggregate, rounded to 2 decimal places. -/
def portfolio_value (cards : List Card) (holdings : List Holding)
    (prices : List PriceRow) : ℚ :=
  round2 (portfolioTotal cards holdings prices)

/-- The list branch of the schema check: `some` exactly on arrays. -/
def asArr : Json → Option (List Json)
  | Json.arr l => some l
  | _ => none

/-- A sequence of already-normalized rows upserted in order, the row-level
view of one ingestion batch. -/
def applyRows (store : List PriceRow) (rs : List PriceRow) : List PriceRow :=
  rs.foldl upsertRow store

/-- The `unique (id_product, date)` table invariant: pairwise distinct
conflict keys. -/
def keysNodup (s : List PriceRow) : Prop :=
  (s.map rkey).Nodup

/-- Last row of a batch carrying a given conflict key, folded over an
accumulator. -/
def lastKeyedAux (k : Int × Date) (acc : Option PriceRow)
    (rs : List PriceRow) : Option PriceRow :=
  rs.foldl (fun a x => if rkey x = k then some x else a) acc

/-- Last row of a batch carrying a given conflict key. -/
def lastKeyed (k : Int × Date) (rs : List PriceRow) : Option PriceRow :=
  lastKeyedAux k none rs

/-- Pure running maximum of a list of dates, seeded with an initial one. -/
def maxDateAux (m : Date) (ds : List Date) : Date :=
  ds.foldl (fun acc x => if dateBle acc x then x else acc) m

section DateLemmas

theorem dateBle_refl (a : Date) : dateBle a a = true := by
  simp [dateBle]

theorem dateBle_trans {a b c : Date} (h1 : dateBle a b = true)
    (h2 : dateBle b c = true) : dateBle a c = true := by
  simp only [dateBle, decide_eq_true_eq] at h1 h2 ⊢
  omega

theorem dateBle_total (a b : Date) : dateBle a b = true ∨ dateBle b a = true := by
  simp only [dateBle, decide_eq_true_eq]
  omega

theorem maxDateAux_ge_init (m : Date) (ds : List Date) :
    dateBle m (maxDateAux m ds) = true := by
  induction ds generalizing m with
  | nil => exact dateBle_refl m
  | cons x ds ih =>
    show dateBle m (maxDateAux (if dateBle m x then x else m) ds) = true
    by_cases h : dateBle m x = true
    · rw [if_pos h]
      exact dateBle_trans h (ih x)
    · rw [if_neg h]
      exact ih m

theorem maxDateAux_ge_mem (m : Date) (ds : List Date) :
    ∀ x ∈ ds, dateBle x (maxDateAux m ds) = true := by
  induction ds generalizing m with
  | nil => intro x hx; cases hx
  | cons y ds ih =>
    intro x hx
    rcases List.mem_cons.mp hx with h1 | h1
    · show dateBle x (maxDateAux (if dateBle m y then y else m) ds) = true
      by_cases h : dateBle m y = true
      · rw [if_pos h, h1]
        exact maxDateAux_ge_init y ds
      · rw [if_neg h, h1]
        rcases dateBle_total m y with hmy | hym
        · exact absurd hmy h
        · exact dateBle_trans hym (maxDateAux_ge_init m ds)
    · exact ih (if dateBle m y then y else m) x h1

theorem maxDateAux_mem (m : Date) (ds : List Date) :
    maxDateAux m ds = m ∨ maxDateAux m ds ∈ ds := by
  induction ds generalizing m with
  | nil => exact Or.inl rfl
  | cons x ds ih =>
    show maxDateAux (if dateBle m x then x else m) ds = m ∨
      maxDateAux (if dateBle m x then x else m) ds ∈ x :: ds
    by_cases hb : dateBle m x = true
    · rw [if_pos hb]
      rcases ih x with h | h
      · exact Or.inr (List.mem_cons.mpr (Or.inl h))
      · exact Or.inr (List.mem_cons.mpr (Or.inr h))
    · rw [if_neg hb]
      rcases ih m with h | h
      · exact Or.inl h
      · exact Or.inr (List.mem_cons.mpr (Or.inr h))

theorem maxDate_cons (x : Date) (ds : List Date) :
    maxDate (x :: ds) = some (maxDateAux x ds) := by
  have aux : ∀ (l : List Date) (m : Date),
      List.foldl
        (fun acc y =>
          match acc with
          | none => some y
          | some mm => some (if dateBle mm y then y else mm))
        (some m) l = some (maxDateAux m l) := by
    intro l
    induction l with
    | nil => intro m; rfl
    | cons y l ih => intro m; exact ih (if dateBle m y then y else m)
  exact aux ds x

theorem maxDate_ge (ds : List Date) (d : Date) (h : maxDate ds = some d) :
    ∀ x ∈ ds, dateBle x d = true := by
  cases ds with
  | nil => intro x hx; cases hx
  | cons y ds =>
    rw [maxDate_cons] at h
    rcases Option.some.inj h with heq
    intro x hx
    rw [← heq]
    rcases List.mem_cons.mp hx with h1 | h1
    · rw [h1]
      exact maxDateAux_ge_init y ds
    · exact maxDateAux_ge_mem y ds x h1

theorem maxDate_mem (ds : List Date) (d : Date) (h : maxDate ds = some d) :
    d ∈ ds := by
  cases ds with
  | nil => cases h
  | cons y ds =>
    rw [maxDate_cons] at h
    rcases Option.some.inj h with heq
    rw [← heq]
    rcases maxDateAux_mem y ds with h1 | h1
    · rw [h1]
      exact List.mem_cons_self y ds
    · exact List.mem_cons_of_mem y h1

theorem maxDate_eq_none (ds : List Date) (h : maxDate ds = none) : ds = [] := by
  cases ds with
  | nil => rfl
  | cons y ds => rw [maxDate_cons] at h; cases h

end DateLemmas

section ValuationLemmas

theorem latestDate_none {prices : List PriceRow} {pid : Int}
    (h : latestDate prices pid = none) :
    ∀ q ∈ prices, q.id_product ≠ pid := by
  have hnil := maxDate_eq_none _ h
  have hfil : prices.filter (fun p => decide (p.id_product = pid)) = [] :=
    List.map_eq_nil_iff.mp hnil
  intro q hq hqe
  have : q ∈ prices.filter (fun p => decide (p.id_product = pid)) :=
    List.mem_filter.mpr ⟨hq, by simp [hqe]⟩
  rw [hfil] at this
  cases this

theorem latestDate_ge {prices : List PriceRow} {pid : Int} {d : Date}
    (h : latestDate prices pid = some d) :
    ∀ q ∈ prices, q.id_product = pid → dateBle q.date d = true := by
  intro q hq hqe
  refine maxDate_ge _ _ h q.date ?_
  exact List.mem_map_of_mem _ (List.mem_filter.mpr ⟨hq, by simp [hqe]⟩)

theorem latestDate_witness {prices : List PriceRow} {pid : Int} {d : Date}
    (h : latestDate prices pid = some d) :
    ∃ q ∈ prices, q.id_product = pid ∧ q.date = d := by
  have hd := maxDate_mem _ _ h
  rcases List.mem_map.mp hd with ⟨q, hq, hqd⟩
  rcases List.mem_filter.mp hq with ⟨hqmem, hqe⟩
  exact ⟨q, hqmem, by simpa using hqe, hqd⟩

theorem priceRowFor_some {prices : List PriceRow} {pid : Int} {p : PriceRow}
    (h : priceRowFor prices pid = some p) :
    p ∈ prices ∧ p.id_product = pid ∧
      ∀ q ∈ prices, q.id_product = pid → dateBle q.date p.date = true := by
  unfold priceRowFor at h
  cases hld : latestDate prices pid with
  | none => rw [hld] at h; cases h
  | some d =>
    rw [hld] at h
    have hmem := List.mem_of_find?_eq_some h
    have hpred := List.find?_some h
    rw [decide_eq_true_eq] at hpred
    refine ⟨hmem, hpred.1, ?_⟩
    intro q hq hqe
    rw [hpred.2]
    exact latestDate_ge hld q hq hqe

theorem priceRowFor_none {prices : List PriceRow} {pid : Int}
    (h : priceRowFor prices pid = none) :
    ∀ q ∈ prices, q.id_product ≠ pid := by
  unfold priceRowFor at h
  cases hld : latestDate prices pid with
  | none => exact latestDate_none hld
  | some d =>
    rw [hld] at h
    rcases latestDate_witness hld with ⟨q, hq, hqe, hqd⟩
    have := List.find?_eq_none.mp h q hq
    rw [decide_eq_true_eq] at this
    exact absurd ⟨hqe, hqd⟩ this

theorem holdingValue_single (prices : List PriceRow) (h : Holding) (c : Card)
    (hc : c.id = h.card_id) :
    holdingValue [c] prices h = cardValue prices h c := by
  unfold holdingValue
  simp [List.filter, hc]

end ValuationLemmas

/-- A conflict key occurs in a store. -/
def keyMem (k : Int × Date) (s : List PriceRow) : Prop :=
  ∃ q ∈ s, rkey q = k

section UpsertLemmas

theorem applyRows_cons (s : List PriceRow) (r : PriceRow)
    (rs : List PriceRow) :
    applyRows s (r :: rs) = applyRows (upsertRow s r) rs := rfl

theorem keyMem_upsert_self (s : List PriceRow) (r : PriceRow) :
    keyMem (rkey r) (upsertRow s r) := by
  unfold upsertRow
  by_cases h : s.any (fun q => decide (rkey q = rkey r)) = true
  · rw [if_pos h]
    have : ∃ q ∈ s, rkey q = rkey r := by
      simpa only [List.any_eq_true, decide_eq_true_eq] using h
    rcases this with ⟨q, hq, hqe⟩
    exact ⟨r, List.mem_map.mpr ⟨q, hq, by rw [if_pos hqe]⟩, rfl⟩
  · rw [if_neg h]
    exact ⟨r, List.mem_append.mpr (Or.inr (List.mem_singleton.mpr rfl)), rfl⟩

theorem keyMem_upsert_mono {k : Int × Date} {s : List PriceRow}
    (r : PriceRow) (h : keyMem k s) : keyMem k (upsertRow s r) := by
  rcases h with ⟨q, hq, hqe⟩
  unfold upsertRow
  by_cases hg : s.any (fun p => decide (rkey p = rkey r)) = true
  · rw [if_pos hg]
    by_cases he : rkey q = rkey r
    · refine ⟨r, List.mem_map.mpr ⟨q, hq, by rw [if_pos he]⟩, ?_⟩
      rw [← he]; exact hqe
    · exact ⟨q, List.mem_map.mpr ⟨q, hq, by rw [if_neg he]⟩, hqe⟩
  · rw [if_neg hg]
    exact ⟨q, List.mem_append.mpr (Or.inl hq), hqe⟩

theorem keyMem_applyRows_mono {k : Int × Date} :
    ∀ (rs : List PriceRow) (s : List PriceRow), keyMem k s →
      keyMem k (applyRows s rs) := by
  intro rs
  induction rs with
  | nil => intro s h; exact h
  | cons y rs ih => intro s h; exact ih (upsertRow s y) (keyMem_upsert_mono y h)

theorem keyMem_applyRows_of_mem {x : PriceRow} :
    ∀ (rs : List PriceRow) (s : List PriceRow), x ∈ rs →
      keyMem (rkey x) (applyRows s rs) := by
  intro rs
  induction rs with
  | nil => intro s hx; cases hx
  | cons y rs ih =>
    intro s hx
    rcases List.mem_cons.mp hx with h1 | h1
    · rw [h1]
      exact keyMem_applyRows_mono rs (upsertRow s y) (keyMem_upsert_self s y)
    · exact ih (upsertRow s y) h1

theorem mem_upsert_eq_of_key (s : List PriceRow) (r p : PriceRow)
    (hp : p ∈ upsertRow s r) (hk : rkey p = rkey r) : p = r := by
  unfold upsertRow at hp
  by_cases hg : s.any (fun q => decide (rkey q = rkey r)) = true
  · rw [if_pos hg] at hp
    rcases List.mem_map.mp hp with ⟨q, hq, hqe⟩
    by_cases he : rkey q = rkey r
    · rw [if_pos he] at hqe
      exact hqe.symm
    · rw [if_neg he] at hqe
      subst hqe
      exact absurd hk he
  · rw [if_neg hg] at hp
    rcases List.mem_append.mp hp with h1 | h1
    · exfalso
      apply hg
      simp only [List.any_eq_true, decide_eq_true_eq]
      exact ⟨p, h1, hk⟩
    · exact List.mem_singleton.mp h1

theorem upsert_keyInv (k : Int × Date) (r : PriceRow) (t : List PriceRow)
    (y : PriceRow) (hy : rkey y ≠ k)
    (ht : ∀ p ∈ t, rkey p = k → p = r) :
    ∀ p ∈ upsertRow t y, rkey p = k → p = r := by
  intro p hp hpk
  unfold upsertRow at hp
  by_cases hg : t.any (fun q => decide (rkey q = rkey y)) = true
  · rw [if_pos hg] at hp
    rcases List.mem_map.mp hp with ⟨q, hq, hqe⟩
    by_cases he : rkey q = rkey y
    · rw [if_pos he] at hqe
      subst hqe
      exact absurd hpk hy
    · rw [if_neg he] at hqe
      subst hqe
      exact ht q hq hpk
  · rw [if_neg hg] at hp
    rcases List.mem_append.mp hp with h1 | h1
    · exact ht p h1 hpk
    · have heq := List.mem_singleton.mp h1
      subst heq
      exact absurd hpk hy

theorem applyRows_keyInv (k : Int × Date) (r : PriceRow) :
    ∀ (rest : List PriceRow) (t : List PriceRow),
      (∀ y ∈ rest, rkey y ≠ k) → (∀ p ∈ t, rkey p = k → p = r) →
      ∀ p ∈ applyRows t rest, rkey p = k → p = r := by
  intro rest
  induction rest with
  | nil => intro t _ ht; exact ht
  | cons y rest ih =>
    intro t hrest ht
    exact ih (upsertRow t y)
      (fun z hz => hrest z (List.mem_cons_of_mem y hz))
      (upsert_keyInv k r t y (hrest y (List.mem_cons_self y rest)) ht)

theorem lastKeyedAux_of_not_mem (k : Int × Date) :
    ∀ (rs : List PriceRow), (∀ x ∈ rs, rkey x ≠ k) →
      ∀ (a : Option PriceRow), lastKeyedAux k a rs = a := by
  intro rs
  induction rs with
  | nil => intro _ a; rfl
  | cons y rs ih =>
    intro h a
    show lastKeyedAux k (if rkey y = k then some y else a) rs = a
    rw [if_neg (h y (List.mem_cons_self y rs))]
    exact ih (fun x hx => h x (List.mem_cons_of_mem y hx)) a

theorem lastKeyedAux_of_mem (k : Int × Date) :
    ∀ (rs : List PriceRow), (∃ x ∈ rs, rkey x = k) →
      ∀ (a b : Option PriceRow), lastKeyedAux k a rs = lastKeyedAux k b rs := by
  intro rs
  induction rs with
  | nil =>
    intro h
    rcases h with ⟨x, hx, _⟩
    cases hx
  | cons y rs ih =>
    intro h a b
    show lastKeyedAux k (if rkey y = k then some y else a) rs =
      lastKeyedAux k (if rkey y = k then some y else b) rs
    by_cases he : rkey y = k
    · rw [if_pos he, if_pos he]
    · rw [if_neg he, if_neg he]
      rcases h with ⟨x, hx, hxe⟩
      rcases List.mem_cons.mp hx with h1 | h1
      · exact absurd (h1 ▸ hxe) he
      · exact ih ⟨x, h1, hxe⟩ a b

theorem mem_applyRows_lastKeyed :
    ∀ (rs : List PriceRow) (s : List PriceRow), ∀ q ∈ applyRows s rs,
      ∀ x ∈ rs, rkey x = rkey q → lastKeyed (rkey q) rs = some q := by
  intro rs
  induction rs with
  | nil => intro s q _ x hx; cases hx
  | cons y rs ih =>
    intro s q hq x hx hxk
    by_cases hrest : ∃ z ∈ rs, rkey z = rkey q
    · rcases hrest with ⟨z, hz, hzk⟩
      have step := ih (upsertRow s y) q hq z hz hzk
      show lastKeyedAux (rkey q) (if rkey y = rkey q then some y else none) rs =
        some q
      rw [lastKeyedAux_of_mem (rkey q) rs ⟨z, hz, hzk⟩
        (if rkey y = rkey q then some y else none) none]
      exact step
    · push_neg at hrest
      have hxy : x = y := by
        rcases List.mem_cons.mp hx with h1 | h1
        · exact h1
        · exact absurd hxk (hrest x h1)
      have hyk : rkey y = rkey q := hxy ▸ hxk
      show lastKeyedAux (rkey q) (if rkey y = rkey q then some y else none) rs =
        some q
      rw [if_pos hyk, lastKeyedAux_of_not_mem (rkey q) rs hrest (some y)]
      have hqy : q = y := by
        refine applyRows_keyInv (rkey q) y rs (upsertRow s y) hrest ?_ q hq rfl
        intro p hp hpk
        exact mem_upsert_eq_of_key s y p hp (hpk.trans hyk.symm)
      rw [hqy]

end UpsertLemmas

/-- Two stores with pointwise equal conflict keys that may differ only in
rows carrying key `k`. -/
def eqExcept (k : Int × Date) (u v : List PriceRow) : Prop :=
  List.Forall₂ (fun a b => rkey a = rkey b ∧ (rkey a ≠ k → a = b)) u v

section EqExceptLemmas

theorem eqExcept_any {k : Int × Date} {u v : List PriceRow}
    (h : eqExcept k u v) (kk : Int × Date) :
    u.any (fun q => decide (rkey q = kk)) =
      v.any (fun q => decide (rkey q = kk)) := by
  induction h with
  | nil => rfl
  | cons hab hf ih => simp only [List.any_cons, hab.1, ih]

theorem forall2_cons_self_append {R : PriceRow → PriceRow → Prop}
    {r : PriceRow} (hr : R r r) :
    ∀ {u v : List PriceRow}, List.Forall₂ R u v →
      List.Forall₂ R (u ++ [r]) (v ++ [r]) := by
  intro u v h
  induction h with
  | nil => exact List.Forall₂.cons hr List.Forall₂.nil
  | cons hab hf ih => exact List.Forall₂.cons hab ih

theorem eqExcept_upsert_self {s : List PriceRow} {r : PriceRow}
    (hmem : keyMem (rkey r) s) : eqExcept (rkey r) s (upsertRow s r) := by
  unfold upsertRow
  have hg : s.any (fun q => decide (rkey q = rkey r)) = true := by
    simp only [List.any_eq_true, decide_eq_true_eq]
    exact hmem
  rw [if_pos hg]
  clear hg hmem
  induction s with
  | nil => exact List.Forall₂.nil
  | cons a s ih =>
    refine List.Forall₂.cons ?_ ih
    by_cases he : rkey a = rkey r
    · simp only [if_pos he]
      exact ⟨he, fun hne => absurd he hne⟩
    · simp only [if_neg he]
      exact ⟨trivial, fun _ => trivial⟩

theorem eqExcept_upsert {k : Int × Date} {u v : List PriceRow}
    (h : eqExcept k u v) (r : PriceRow) :
    eqExcept k (upsertRow u r) (upsertRow v r) := by
  unfold upsertRow
  rw [eqExcept_any h (rkey r)]
  by_cases hg : v.any (fun q => decide (rkey q = rkey r)) = true
  · rw [if_pos hg, if_pos hg]
    clear hg
    induction h with
    | nil => exact List.Forall₂.nil
    | cons hab hf ih =>
      rename_i a b l1 l2
      refine List.Forall₂.cons ?_ ih
      by_cases he : rkey a = rkey r
      · simp only [if_pos he, if_pos (hab.1.symm.trans he)]
        exact ⟨trivial, fun _ => trivial⟩
      · simp only [if_neg he, if_neg (fun hc => he (hab.1.trans hc))]
        exact hab
  · rw [if_neg hg, if_neg hg]
    exact forall2_cons_self_append ⟨rfl, fun _ => rfl⟩ h

theorem eqExcept_eq_of_no_key {k : Int × Date} {u v : List PriceRow}
    (h : eqExcept k u v) (hv : ∀ q ∈ v, rkey q ≠ k) : u = v := by
  revert hv
  induction h with
  | nil => intro _; rfl
  | cons hab hf ih =>
    intro hv
    have hhead := hab.2 (by
      rw [hab.1]
      exact hv _ (List.mem_cons_self _ _))
    rw [hhead, ih (fun q hq => hv q (List.mem_cons_of_mem _ hq))]

theorem eqExcept_upsert_eq {k : Int × Date} {u v : List PriceRow}
    (h : eqExcept k u v) (r : PriceRow) (hr : rkey r = k) :
    upsertRow u r = upsertRow v r := by
  unfold upsertRow
  rw [eqExcept_any h (rkey r)]
  by_cases hg : v.any (fun q => decide (rkey q = rkey r)) = true
  · rw [if_pos hg, if_pos hg]
    clear hg
    induction h with
    | nil => rfl
    | cons hab hf ih =>
      rename_i a b l1 l2
      simp only [List.map_cons]
      rw [ih]
      by_cases he : rkey a = rkey r
      · simp only [if_pos he, if_pos (hab.1.symm.trans he)]
      · simp only [if_neg he, if_neg (fun hc => he (hab.1.trans hc)),
          hab.2 (fun hc => he (hc.trans hr.symm))]
  · rw [if_neg hg, if_neg hg]
    have hv : ∀ q ∈ v, rkey q ≠ k := by
      intro q hq hc
      apply hg
      simp only [List.any_eq_true, decide_eq_true_eq]
      exact ⟨q, hq, hc.trans hr.symm⟩
    rw [eqExcept_eq_of_no_key h hv]

theorem eqExcept_applyRows {k : Int × Date} :
    ∀ (rs : List PriceRow) (u v : List PriceRow), eqExcept k u v →
      (∃ x ∈ rs, rkey x = k) → applyRows u rs = applyRows v rs := by
  intro rs
  induction rs with
  | nil =>
    intro u v _ hex
    rcases hex with ⟨x, hx, _⟩
    cases hx
  | cons y rs ih =>
    intro u v h hex
    by_cases hy : rkey y = k
    · show applyRows (upsertRow u y) rs = applyRows (upsertRow v y) rs
      rw [eqExcept_upsert_eq h y hy]
    · rcases hex with ⟨x, hx, hxk⟩
      rcases List.mem_cons.mp hx with h1 | h1
      · exact absurd (h1 ▸ hxk) hy
      · exact ih (upsertRow u y) (upsertRow v y) (eqExcept_upsert h y)
          ⟨x, h1, hxk⟩

end EqExceptLemmas

section IdempotenceLemmas

theorem applyRows_saturated :
    ∀ (rs : List PriceRow) (u : List PriceRow),
      (∀ x ∈ rs, keyMem (rkey x) u ∧
        ∀ q ∈ u, rkey q = rkey x → lastKeyed (rkey x) rs = some q) →
      applyRows u rs = u := by
  intro rs
  induction rs with
  | nil => intro u _; rfl
  | cons y rs ih =>
    intro u hsat
    have hy := hsat y (List.mem_cons_self y rs)
    have hsatRest : ∀ x ∈ rs, keyMem (rkey x) u ∧
        ∀ q ∈ u, rkey q = rkey x → lastKeyed (rkey x) rs = some q := by
      intro x hx
      refine ⟨(hsat x (List.mem_cons_of_mem y hx)).1, ?_⟩
      intro q hq hqk
      have h0 := (hsat x (List.mem_cons_of_mem y hx)).2 q hq hqk
      have hstep : lastKeyed (rkey x) (y :: rs) = lastKeyed (rkey x) rs := by
        show lastKeyedAux (rkey x) (if rkey y = rkey x then some y else none) rs =
          lastKeyedAux (rkey x) none rs
        exact lastKeyedAux_of_mem (rkey x) rs ⟨x, hx, rfl⟩ _ none
      rw [← hstep]
      exact h0
    by_cases hrest : ∃ z ∈ rs, rkey z = rkey y
    · have hEE : eqExcept (rkey y) u (upsertRow u y) :=
        eqExcept_upsert_self hy.1
      show applyRows (upsertRow u y) rs = u
      rw [← eqExcept_applyRows rs u (upsertRow u y) hEE hrest]
      exact ih u hsatRest
    · push_neg at hrest
      have hlast : lastKeyed (rkey y) (y :: rs) = some y := by
        show lastKeyedAux (rkey y) (if rkey y = rkey y then some y else none) rs =
          some y
        rw [if_pos rfl]
        exact lastKeyedAux_of_not_mem (rkey y) rs hrest (some y)
      have hvals : ∀ q ∈ u, rkey q = rkey y → q = y := by
        intro q hq hqk
        have h1 := hy.2 q hq hqk
        rw [hlast] at h1
        exact (Option.some.inj h1).symm
      have hupsert : upsertRow u y = u := by
        unfold upsertRow
        have hg : u.any (fun q => decide (rkey q = rkey y)) = true := by
          simp only [List.any_eq_true, decide_eq_true_eq]
          exact hy.1
        rw [if_pos hg]
        have hpt : ∀ q ∈ u, (if rkey q = rkey y then y else q) = id q := by
          intro q hq
          by_cases he : rkey q = rkey y
          · rw [if_pos he, hvals q hq he]
            rfl
          · rw [if_neg he]
            rfl
        rw [List.map_congr_left hpt, List.map_id]
      show applyRows (upsertRow u y) rs = u
      rw [hupsert]
      exact ih u hsatRest

theorem applyRows_idem (rs s : List PriceRow) :
    applyRows (applyRows s rs) rs = applyRows s rs := by
  refine applyRows_saturated rs (applyRows s rs) ?_
  intro x hx
  refine ⟨keyMem_applyRows_of_mem rs s hx, ?_⟩
  intro q hq hqk
  rw [← hqk]
  exact mem_applyRows_lastKeyed rs s q hq x hx hqk.symm

theorem syncEntries_foldl_eq (today : Date) :
    ∀ (entries : List Json) (store : List PriceRow) (n : Nat),
      entries.foldl (syncStep today) (store, n) =
        (applyRows store (entries.filterMap (rowToPrice today)),
         n + (entries.filterMap (rowToPrice today)).length) := by
  intro entries
  induction entries with
  | nil =>
    intro store n
    simp [applyRows]
  | cons e entries ih =>
    intro store n
    show entries.foldl (syncStep today) (syncStep today (store, n) e) = _
    cases he : rowToPrice today e with
    | none =>
      have hs : syncStep today (store, n) e = (store, n) := by
        simp [syncStep, he]
      rw [hs, ih store n]
      simp only [List.filterMap_cons, he]
    | some r =>
      have hs : syncStep today (store, n) e = (upsertRow store r, n + 1) := by
        simp [syncStep, he]
      rw [hs, ih (upsertRow store r) (n + 1)]
      simp only [List.filterMap_cons, he, List.length_cons, applyRows_cons,
        Prod.mk.injEq]
      exact ⟨trivial, by omega⟩

theorem applyBatch_eq (today : Date) (store : List PriceRow)
    (entries : List Json) :
    applyBatch today store entries =
      applyRows store (entries.filterMap (rowToPrice today)) := by
  unfold applyBatch syncEntries
  rw [syncEntries_foldl_eq today entries store 0]

theorem keysNodup_upsert {s : List PriceRow} (r : PriceRow)
    (h : keysNodup s) : keysNodup (upsertRow s r) := by
  unfold upsertRow
  by_cases hg : s.any (fun q => decide (rkey q = rkey r)) = true
  · rw [if_pos hg]
    unfold keysNodup at h ⊢
    have hmaps :
        (s.map (fun q => if rkey q = rkey r then r else q)).map rkey =
          s.map rkey := by
      rw [List.map_map]
      refine List.map_congr_left ?_
      intro q _
      show rkey (if rkey q = rkey r then r else q) = rkey q
      by_cases he : rkey q = rkey r
      · rw [if_pos he, he]
      · rw [if_neg he]
    rw [hmaps]
    exact h
  · rw [if_neg hg]
    unfold keysNodup at h ⊢
    rw [List.map_append]
    refine List.Nodup.append h (List.nodup_singleton _) ?_
    intro a ha hb
    have hab := List.mem_singleton.mp hb
    subst hab
    rcases List.mem_map.mp ha with ⟨q, hq, hqe⟩
    apply hg
    simp only [List.any_eq_true, decide_eq_true_eq]
    exact ⟨q, hq, by rw [hqe]⟩

theorem keysNodup_applyRows :
    ∀ (rs s : List PriceRow), keysNodup s → keysNodup (applyRows s rs) := by
  intro rs
  induction rs with
  | nil => intro s h; exact h
  | cons y rs ih =>
    intro s h
    exact ih (upsertRow s y) (keysNodup_upsert y h)

end IdempotenceLemmas

section BatchLemmas

theorem foldl_syncStep_skip (today : Date) (bad : Json)
    (hbad : rowToPrice today bad = none) :
    ∀ (pre post : List Json) (p : List PriceRow × Nat),
      (pre ++ bad :: post).foldl (syncStep today) p =
        (pre ++ post).foldl (syncStep today) p := by
  intro pre
  induction pre with
  | nil =>
    intro post p
    show post.foldl (syncStep today) (syncStep today p bad) =
      post.foldl (syncStep today) p
    have hstep : syncStep today p bad = p := by
      simp [syncStep, hbad]
    rw [hstep]
  | cons e pre ih =>
    intro post p
    show (pre ++ bad :: post).foldl (syncStep today) (syncStep today p e) =
      (pre ++ post).foldl (syncStep today) (syncStep today p e)
    exact ih post (syncStep today p e)

theorem importRow_fail_foldlM (d : Date) :
    ∀ (rows : List (List (String × Json))) (p : List PriceRow × Nat),
      (∃ row ∈ rows, pyInt (jget row "idProduct") = none) →
      List.foldlM (importRow d) p rows = none := by
  intro rows
  induction rows with
  | nil =>
    intro p h
    rcases h with ⟨r, hr, _⟩
    cases hr
  | cons row rows ih =>
    intro p h
    rcases h with ⟨r, hr, hre⟩
    rcases List.mem_cons.mp hr with h1 | h1
    · have hrow : importRow d p row = none := by
        rw [h1] at hre
        simp [importRow, hre]
      simp [List.foldlM_cons, hrow]
    · cases hrow : importRow d p row with
      | none => simp [List.foldlM_cons, hrow]
      | some acc =>
        simp only [List.foldlM_cons, hrow]
        exact ih acc ⟨r, h1, hre⟩

theorem foldlM_syncStepE_skip (today : Date) (bad : Json)
    (hbad : ∀ acc, syncStepE today acc bad = some acc) :
    ∀ (pre post : List Json) (p : List PriceRow × Nat),
      List.foldlM (syncStepE today) p (pre ++ bad :: post) =
        List.foldlM (syncStepE today) p (pre ++ post) := by
  intro pre
  induction pre with
  | nil =>
    intro post p
    simp [List.foldlM_cons, hbad p]
  | cons e pre ih =>
    intro post p
    cases hstep : syncStepE today p e with
    | none => simp [List.foldlM_cons, hstep]
    | some acc =>
      simp only [List.cons_append, List.foldlM_cons, hstep]
      simp only [Option.bind_eq_bind, Option.some_bind]
      exact ih post acc

theorem foldlM_syncStepE_abort (today : Date) (bad : Json)
    (hbad : ∀ acc, syncStepE today acc bad = none) :
    ∀ (pre post : List Json) (p : List PriceRow × Nat),
      List.foldlM (syncStepE today) p (pre ++ bad :: post) = none := by
  intro pre
  induction pre with
  | nil =>
    intro post p
    simp [List.foldlM_cons, hbad p]
  | cons e pre ih =>
    intro post p
    cases hstep : syncStepE today p e with
    | none => simp [List.foldlM_cons, hstep]
    | some acc =>
      simp only [List.cons_append, List.foldlM_cons, hstep]
      simp only [Option.bind_eq_bind, Option.some_bind]
      exact ih post acc

end BatchLemmas

/-- C1 counterexample: the claimed candidate set and selection rule both
fail on the code.  A document whose single wrapper key is `"priceGuides"`
(a "known" key per the claim) is not located, and in a document where
`"products"` holds a non-list while `"data"` holds a list, the first
candidate key whose value is a list is not taken either: the present
`"products"` key wins and the run fails. -/
theorem C1_counterexample :
    locateEntries (Json.obj [("priceGuides", Json.arr [])]) = none ∧
    locateEntries (Json.obj [("products", Json.num 0),
      ("data", Json.arr [])]) = none := by
  constructor
  · rfl
  · rfl

/-- C1 (amended): the normalizer's wrapper-key candidates are exactly
`"products"` then `"data"`, selected by key presence (the value's shape is
not examined at selection time); the selected value, or the root itself,
must then be a list, otherwise the result is the SchemaFailure `none`;
a bare list root is used directly and every non-object non-list root
fails. -/
theorem C1_theorem :
    (∀ l, locateEntries (Json.arr l) = some l) ∧
    (∀ fields, fields.any (fun p => p.1 == "products") = true →
        locateEntries (Json.obj fields) = asArr (jget fields "products")) ∧
    (∀ fields, fields.any (fun p => p.1 == "products") = false →
        fields.any (fun p => p.1 == "data") = true →
        locateEntries (Json.obj fields) = asArr (jget fields "data")) ∧
    (∀ fields, fields.any (fun p => p.1 == "products") = false →
        fields.any (fun p => p.1 == "data") = false →
        locateEntries (Json.obj fields) = none) ∧
    locateEntries Json.null = none ∧
    (∀ b, locateEntries (Json.bool b) = none) ∧
    (∀ q, locateEntries (Json.num q) = none) ∧
    (∀ s, locateEntries (Json.str s) = none) := by
  refine ⟨fun l => rfl, ?_, ?_, ?_, rfl, fun b => rfl, fun q => rfl,
    fun s => rfl⟩
  · intro fields hp
    simp only [locateEntries]
    rw [if_pos hp]
    cases jget fields "products" <;> rfl
  · intro fields hp hd
    simp only [locateEntries]
    rw [if_neg (by simp [hp]), if_pos hd]
    cases jget fields "data" <;> rfl
  · intro fields hp hd
    simp only [locateEntries]
    rw [if_neg (by simp [hp]), if_neg (by simp [hd])]

/-- C1 witness: a `"products"`-wrapped list is located. -/
theorem C1_witness :
    locateEntries (Json.obj [("products", Json.arr [Json.num 1])]) =
      asArr (jget [("products", Json.arr [Json.num 1])] "products") :=
  C1_theorem.2.1 [("products", Json.arr [Json.num 1])] (by rfl)

/-- C2 counterexample: the spec's scenario entry with alias field names,
`{"productId": "7", "avg": 3.0}`, is skipped entirely by the feed-sync
loop — no row is produced at all, rather than a DailyPrice with
externalId 7 and avg 3.0 — because the code reads only the exact field
`idProduct`. -/
theorem C2_counterexample :
    syncEntries ⟨2025, 9, 18⟩ []
      [Json.obj [("productId", Json.str "7"), ("avg", Json.num 3)]] =
      ([], 0) ∧
    ¬ ∃ r, r ∈ (syncEntries ⟨2025, 9, 18⟩ []
      [Json.obj [("productId", Json.str "7"), ("avg", Json.num 3)]]).1 ∧
      r.id_product = 7 := by
  constructor
  · rfl
  · rintro ⟨r, hr, -⟩
    have hres : (syncEntries ⟨2025, 9, 18⟩ []
        [Json.obj [("productId", Json.str "7"), ("avg", Json.num 3)]]).1 =
        [] := rfl
    rw [hres] at hr
    cases hr

/-- C2 (amended): the feed-sync normalizer resolves the external
identifier solely from the exact field `idProduct` (converted with
`int`), and each price solely from the exact fields `avgPrice`,
`lowPrice`, `trendPrice` — no camelCase/snake_case alternatives and no
shorter fallback aliases are tried; an object entry whose `idProduct`
does not resolve yields no row. -/
theorem C2_theorem :
    (∀ today fields idp, pyInt (jget fields "idProduct") = some idp →
        rowToPrice today (Json.obj fields) =
          some ⟨idp, today, asPrice (jget fields "avgPrice"),
            asPrice (jget fields "lowPrice"),
            asPrice (jget fields "trendPrice"), Json.obj fields⟩) ∧
    (∀ today fields, pyInt (jget fields "idProduct") = none →
        rowToPrice today (Json.obj fields) = none) := by
  constructor
  · intro today fields idp h
    simp [rowToPrice, h]
  · intro today fields h
    simp [rowToPrice, h]

/-- C2 witness: an entry with the exact feed field names produces the
corresponding row. -/
theorem C2_witness :
    rowToPrice ⟨2025, 9, 18⟩
      (Json.obj [("idProduct", Json.num 7), ("avgPrice", Json.num 3)]) =
      some ⟨7, ⟨2025, 9, 18⟩,
        asPrice (jget [("idProduct", Json.num 7), ("avgPrice", Json.num 3)]
          "avgPrice"),
        asPrice (jget [("idProduct", Json.num 7), ("avgPrice", Json.num 3)]
          "lowPrice"),
        asPrice (jget [("idProduct", Json.num 7), ("avgPrice", Json.num 3)]
          "trendPrice"),
        Json.obj [("idProduct", Json.num 7), ("avgPrice", Json.num 3)]⟩ :=
  C2_theorem.1 ⟨2025, 9, 18⟩
    [("idProduct", Json.num 7), ("avgPrice", Json.num 3)] 7 (by rfl)

/-- C3 counterexample: the valuation query has no "not exceeding today"
bound.  With today = 2025-09-18, two rows for product 1 dated 2025-09-18
(trend 2) and 2025-09-19 (trend 5) and a holding of 3, the code values
the portfolio from the row dated after today (3 × 5 = 15), not from
today's row (3 × 2 = 6) as the claim requires. -/
theorem C3_counterexample :
    portfolio_value [⟨1, some 1⟩] [⟨1, 3⟩]
      [⟨1, ⟨2025, 9, 18⟩, none, none, some 2, Json.null⟩,
       ⟨1, ⟨2025, 9, 19⟩, none, none, some 5, Json.null⟩] = 15 ∧
    dateBle ⟨2025, 9, 19⟩ ⟨2025, 9, 18⟩ = false ∧
    (15 : ℚ) ≠ 6 := by
  refine ⟨?_, by decide, by norm_num⟩
  norm_num [portfolio_value, portfolioTotal, holdingValue, cardValue,
    priceRowFor, latestDate, maxDate, maxDateAux, coalescePrice, round2,
    rkey, dateBle, Rat.floor]

/-- C3 (amended): for each held item the valuation reads the DailyPrice
row with the maximum date over all rows of that item's external
identifier, with no upper bound at "today" (a future-dated row is used);
if the identifier has no row at all, the item contributes zero. -/
theorem C3_theorem :
    (∀ prices pid p, priceRowFor prices pid = some p →
        p.id_product = pid ∧
          ∀ q ∈ prices, q.id_product = pid → dateBle q.date p.date = true) ∧
    (∀ prices pid, priceRowFor prices pid = none →
        ∀ q ∈ prices, q.id_product ≠ pid) ∧
    (∀ prices h c pid, c.id = h.card_id → c.id_product = some pid →
        priceRowFor prices pid = none → holdingValue [c] prices h = 0) := by
  refine ⟨?_, ?_, ?_⟩
  · intro prices pid p hp
    have h := priceRowFor_some hp
    exact ⟨h.2.1, h.2.2⟩
  · intro prices pid h
    exact priceRowFor_none h
  · intro prices h c pid hc hcp hnone
    rw [holdingValue_single prices h c hc]
    simp [cardValue, hcp, hnone]

/-- C3 witness: on a one-row store the resolved row is that row, and it
dominates every row of its product. -/
theorem C3_witness :
    (PriceRow.mk 1 ⟨2025, 9, 18⟩ none none (some 2) Json.null).id_product =
        1 ∧
    ∀ q ∈ [PriceRow.mk 1 ⟨2025, 9, 18⟩ none none (some 2) Json.null],
      q.id_product = 1 →
        dateBle q.date
          (PriceRow.mk 1 ⟨2025, 9, 18⟩ none none (some 2) Json.null).date =
          true :=
  C3_theorem.1 [PriceRow.mk 1 ⟨2025, 9, 18⟩ none none (some 2) Json.null] 1
    (PriceRow.mk 1 ⟨2025, 9, 18⟩ none none (some 2) Json.null) (by rfl)

/-- C4 counterexample: with today = 2025-09-18, a held item (quantity 3)
whose only DailyPrice row is dated 2025-09-19 — i.e. an item with no
record at or before today — contributes 3 × 2 = 6 through that future
row, not the 0 the claim requires (the total is 6, not 0). -/
theorem C4_counterexample :
    portfolio_value [⟨1, some 1⟩] [⟨1, 3⟩]
      [⟨1, ⟨2025, 9, 19⟩, none, some 2, none, Json.null⟩] = 6 ∧
    dateBle ⟨2025, 9, 19⟩ ⟨2025, 9, 18⟩ = false ∧
    (6 : ℚ) ≠ 0 := by
  refine ⟨?_, by decide, by norm_num⟩
  norm_num [portfolio_value, portfolioTotal, holdingValue, cardValue,
    priceRowFor, latestDate, maxDate, maxDateAux, coalescePrice, round2,
    rkey, dateBle, Rat.floor]

/-- C4 (amended): the per-item value is quantity × the first non-null of
trend, avg, low in that fixed order (0 when all three are null), taken
from the item's resolved row; an item whose identifier has no DailyPrice
row at all contributes exactly 0 ("no row at or before today" is not
enough, as the counterexample shows); and the returned total is the sum
rounded to 2 decimal places. -/
theorem C4_theorem :
    (∀ (p : PriceRow) (t : ℚ), p.trend_price = some t →
        coalescePrice p = t) ∧
    (∀ (p : PriceRow) (a : ℚ), p.trend_price = none →
        p.avg_price = some a → coalescePrice p = a) ∧
    (∀ (p : PriceRow) (l : ℚ), p.trend_price = none → p.avg_price = none →
        p.low_price = some l → coalescePrice p = l) ∧
    (∀ p : PriceRow, p.trend_price = none → p.avg_price = none →
        p.low_price = none → coalescePrice p = 0) ∧
    (∀ prices h c pid p, c.id = h.card_id → c.id_product = some pid →
        priceRowFor prices pid = some p →
        holdingValue [c] prices h = (h.quantity : ℚ) * coalescePrice p) ∧
    (∀ prices h c pid, c.id = h.card_id → c.id_product = some pid →
        priceRowFor prices pid = none → holdingValue [c] prices h = 0) ∧
    (∀ cards holdings prices, portfolio_value cards holdings prices =
        round2 (portfolioTotal cards holdings prices)) := by
  refine ⟨?_, ?_, ?_, ?_, ?_, ?_, fun _ _ _ => rfl⟩
  · intro p t h
    simp [coalescePrice, h]
  · intro p a ht h
    simp [coalescePrice, ht, h]
  · intro p l ht ha h
    simp [coalescePrice, ht, ha, h]
  · intro p ht ha hl
    simp [coalescePrice, ht, ha, hl]
  · intro prices h c pid p hc hcp hp
    rw [holdingValue_single prices h c hc]
    simp [cardValue, hcp, hp]
  · intro prices h c pid hc hcp hnone
    rw [holdingValue_single prices h c hc]
    simp [cardValue, hcp, hnone]

/-- C4 witness: an item whose identifier has no price row contributes 0. -/
theorem C4_witness :
    holdingValue [⟨1, some 7⟩] [] ⟨1, 3⟩ = 0 :=
  C4_theorem.2.2.2.2.2.1 [] ⟨1, 3⟩ ⟨1, some 7⟩ 7 rfl rfl rfl

/-- C5: upserting the same (date, entries) batch twice leaves the store
in the same final state as upserting it once, and one batch preserves the
invariant that the store has at most one row per (id_product, date) key,
so any number of ingestion runs started from a store satisfying the
`unique (id_product, date)` constraint never creates a duplicate. -/
theorem C5_theorem :
    (∀ today entries store,
        applyBatch today (applyBatch today store entries) entries =
          applyBatch today store entries) ∧
    (∀ today entries store, keysNodup store →
        keysNodup (applyBatch today store entries)) := by
  constructor
  · intro today entries store
    simp only [applyBatch_eq]
    exact applyRows_idem (entries.filterMap (rowToPrice today)) store
  · intro today entries store h
    rw [applyBatch_eq]
    exact keysNodup_applyRows (entries.filterMap (rowToPrice today)) store h

/-- C5 witness: one concrete batch applied to the empty store satisfies
the per-key uniqueness invariant. -/
theorem C5_witness :
    keysNodup (applyBatch ⟨2025, 9, 18⟩ []
      [Json.obj [("idProduct", Json.num 1), ("avgPrice", Json.num 2)]]) :=
  C5_theorem.2 ⟨2025, 9, 18⟩
    [Json.obj [("idProduct", Json.num 1), ("avgPrice", Json.num 2)]] []
    (by simp [keysNodup])

/-- C6 counterexample: in the manual-import path a single failing row
aborts the whole batch.  A batch whose first row lacks a resolvable
`idProduct` (it has only `productId`) and whose second row is valid ends
with the unhandled-exception outcome and an unchanged (rolled-back)
store: the valid sibling row is not written, contradicting the claim for
the manual-import path. -/
theorem C6_counterexample :
    import_prices true none ⟨2025, 9, 18⟩
      [[("productId", Json.str "7")],
       [("idProduct", Json.num 1), ("avgPrice", Json.num 2)]] [] =
      ([], Except.error ImportError.rowConversionError) := by
  rfl

/-- C6 (amended): only the feed-sync path has row-level failure
isolation — a row whose identifier does not resolve is skipped, not
counted, and leaves the rest of the batch (store and count) exactly as if
the row were absent.  In the manual-import path, any row whose
`idProduct` does not convert makes the whole request fail with the store
unchanged — sibling rows are not written. -/
theorem C6_theorem :
    (∀ today store pre post bad, rowToPrice today bad = none →
        syncEntries today store (pre ++ bad :: post) =
          syncEntries today store (pre ++ post)) ∧
    (∀ today rows store,
        (∃ row ∈ rows, pyInt (jget row "idProduct") = none) →
        import_prices true none today rows store =
          (store, Except.error ImportError.rowConversionError)) := by
  constructor
  · intro today store pre post bad hbad
    unfold syncEntries
    exact foldl_syncStep_skip today bad hbad pre post (store, 0)
  · intro today rows store hex
    have hnone : importRows today store rows = none :=
      importRow_fail_foldlM today rows (store, 0) hex
    simp [import_prices, hnone]

/-- C6 witness: a feed-sync batch with an unresolvable row in the middle
equals the batch without it. -/
theorem C6_witness :
    syncEntries ⟨2025, 9, 18⟩ []
      ([Json.obj [("idProduct", Json.num 1)]] ++ Json.str "bad" ::
        [Json.obj [("idProduct", Json.num 2)]]) =
      syncEntries ⟨2025, 9, 18⟩ []
        ([Json.obj [("idProduct", Json.num 1)]] ++
          [Json.obj [("idProduct", Json.num 2)]]) :=
  C6_theorem.1 ⟨2025, 9, 18⟩ [] [Json.obj [("idProduct", Json.num 1)]]
    [Json.obj [("idProduct", Json.num 2)]] (Json.str "bad") (by rfl)

/-- C7: when the fetch fails, when the payload cannot be
decompressed/decoded/parsed, or when the parsed document has no entry
list, `_run_sync` returns the corresponding structured error (502, 502,
400 respectively) and the price store is exactly the input store:
nothing is written. -/
theorem C7_theorem :
    (∀ today store, runSync true FeedResult.fetchError today store =
        (store, Except.error SyncError.fetchFailure)) ∧
    (∀ today store, runSync true FeedResult.parseError today store =
        (store, Except.error SyncError.parseFailure)) ∧
    (∀ today store doc, locateEntries doc = none →
        runSync true (FeedResult.parsed doc) today store =
          (store, Except.error SyncError.schemaFailure)) := by
  refine ⟨fun _ _ => rfl, fun _ _ => rfl, ?_⟩
  intro today store doc h
  simp [runSync, h]

/-- C7 witness: a JSON `null` document is structurally wrong; the run
errors and the store stays empty. -/
theorem C7_witness :
    runSync true (FeedResult.parsed Json.null) ⟨2025, 9, 18⟩ [] =
      ([], Except.error SyncError.schemaFailure) :=
  C7_theorem.2.2 ⟨2025, 9, 18⟩ [] Json.null (by rfl)

/-- C8 counterexample: the empty string is a present `when` value that is
not a valid YYYY-MM-DD date (`strptime` would raise on it), yet the
request is not rejected: because `""` is falsy, the import proceeds and
writes the row under the default date, returning success. -/
theorem C8_counterexample :
    parseDate "" = none ∧
    import_prices true (some "") ⟨2025, 9, 18⟩
      [[("idProduct", Json.num 1), ("avgPrice", Json.num 2)]] [] =
      ([⟨1, ⟨2025, 9, 18⟩, some 2, none, none,
         Json.obj [("idProduct", Json.num 1), ("avgPrice", Json.num 2)]⟩],
       Except.ok ⟨1, ⟨2025, 9, 18⟩⟩) := by
  exact ⟨rfl, rfl⟩

/-- C8 (amended): a present and non-empty `when` that does not parse as
YYYY-MM-DD is rejected with a client error before any write (the store is
returned unchanged); a present, non-empty, valid `when` is used as the
storage date; an absent — or empty — `when` defaults to today. -/
theorem C8_theorem :
    (∀ s today rows store, s.isEmpty = false → parseDate s = none →
        import_prices true (some s) today rows store =
          (store, Except.error ImportError.badWhen)) ∧
    (∀ s d today rows store st n, s.isEmpty = false → parseDate s = some d →
        importRows d store rows = some (st, n) →
        import_prices true (some s) today rows store =
          (st, Except.ok ⟨n, d⟩)) ∧
    (∀ today rows store st n, importRows today store rows = some (st, n) →
        import_prices true none today rows store =
          (st, Except.ok ⟨n, today⟩)) := by
  refine ⟨?_, ?_, ?_⟩
  · intro s today rows store hne hparse
    simp [import_prices, hne, hparse]
  · intro s d today rows store st n hne hparse hrows
    simp [import_prices, hne, hparse, hrows]
  · intro today rows store st n hrows
    simp [import_prices, hrows]

/-- C8 witness: a present, malformed, non-empty date is rejected before
any write. -/
theorem C8_witness :
    import_prices true (some "2025-13-01") ⟨2025, 9, 18⟩ [] [] =
      ([], Except.error ImportError.badWhen) :=
  C8_theorem.1 "2025-13-01" ⟨2025, 9, 18⟩ [] [] (by rfl) (by rfl)

/-- C9: passing `when=""` to the manual import is indistinguishable from
omitting the parameter — the handler's truthiness test sends both through
`date.today()`, so the rows are stored under today's date and no
malformed-date rejection occurs. -/
theorem C9_theorem :
    ∀ tokenOk today rows store,
      import_prices tokenOk (some "") today rows store =
        import_prices tokenOk none today rows store := by
  intro tokenOk today rows store
  cases tokenOk <;> rfl

/-- C10 counterexample: a list element CAN abort the batch.  An object
entry whose identifier resolves but whose `avgPrice` is a JSON object
reaches the unguarded `cx.execute`, which raises (psycopg cannot adapt a
dict), so the whole batch aborts: the loop returns the abort outcome and
the full handler returns an internal error with the store unchanged —
the valid sibling entries before and after it are not written. -/
theorem C10_counterexample :
    syncEntriesE ⟨2025, 9, 18⟩ []
      [Json.obj [("idProduct", Json.num 1), ("avgPrice", Json.num 2)],
       Json.obj [("idProduct", Json.num 2), ("avgPrice", Json.obj [])],
       Json.obj [("idProduct", Json.num 3), ("avgPrice", Json.num 4)]] =
      none ∧
    runSyncE true
      (FeedResult.parsed (Json.arr
        [Json.obj [("idProduct", Json.num 1), ("avgPrice", Json.num 2)],
         Json.obj [("idProduct", Json.num 2), ("avgPrice", Json.obj [])],
         Json.obj [("idProduct", Json.num 3), ("avgPrice", Json.num 4)]]))
      ⟨2025, 9, 18⟩ [] = ([], Except.error SyncError.execError) :=
  ⟨rfl, rfl⟩

/-- C10 (amended): the catch-all `try/except` protects only the
identifier resolution, so every entry that is not a JSON object (the
`.get` call raises inside the `try`) is silently skipped and not
counted, removing it from the entry list leaves the whole batch result
unchanged, and likewise for an object entry whose identifier does not
resolve; but not every element shape is harmless: once the identifier
resolves, the `cx.execute` runs outside any handler, and an entry whose
price value cannot be adapted or cast raises there and aborts the whole
batch, the store reverting to its input state. -/
theorem C10_theorem :
    (∀ today acc row, (∀ fields, row ≠ Json.obj fields) →
        syncStepE today acc row = some acc) ∧
    (∀ today store pre post bad, (∀ fields, bad ≠ Json.obj fields) →
        syncEntriesE today store (pre ++ bad :: post) =
          syncEntriesE today store (pre ++ post)) ∧
    (∀ today acc fields, pyInt (jget fields "idProduct") = none →
        syncStepE today acc (Json.obj fields) = some acc) ∧
    (∀ today acc fields idp, pyInt (jget fields "idProduct") = some idp →
        adaptPrice (jget fields "avgPrice") = none →
        syncStepE today acc (Json.obj fields) = none) ∧
    (∀ today store pre post bad, (∀ acc, syncStepE today acc bad = none) →
        syncEntriesE today store (pre ++ bad :: post) = none) ∧
    (∀ today store doc entries, locateEntries doc = some entries →
        syncEntriesE today store entries = none →
        runSyncE true (FeedResult.parsed doc) today store =
          (store, Except.error SyncError.execError)) := by
  have hskip : ∀ today acc row, (∀ fields, row ≠ Json.obj fields) →
      syncStepE today acc row = some acc := by
    intro today acc row h
    cases row with
    | null => rfl
    | bool b => rfl
    | num q => rfl
    | str s => rfl
    | arr l => rfl
    | obj fields => exact absurd rfl (h fields)
  refine ⟨hskip, ?_, ?_, ?_, ?_, ?_⟩
  · intro today store pre post bad h
    unfold syncEntriesE
    exact foldlM_syncStepE_skip today bad
      (fun acc => hskip today acc bad h) pre post (store, 0)
  · intro today acc fields h
    simp [syncStepE, h]
  · intro today acc fields idp h1 h2
    simp [syncStepE, h1, h2]
  · intro today store pre post bad h
    unfold syncEntriesE
    exact foldlM_syncStepE_abort today bad h pre post (store, 0)
  · intro today store doc entries h1 h2
    simp [runSyncE, h1, h2]

/-- C10 witness: a bare string entry is skipped without any effect. -/
theorem C10_witness :
    syncStepE ⟨2025, 9, 18⟩ ([], 0) (Json.str "x") = some ([], 0) :=
  C10_theorem.1 ⟨2025, 9, 18⟩ ([], 0) (Json.str "x")
    (fun _ h => Json.noConfusion h)
